import Mathlib

/-!
Verification development for the diceroll command-line random-number tool.
The definitions below shallowly embed the most complete variant of the
program: its validated configuration (`program_args`/`parse_args`), the
rounding policy, the acceptance filter chain, the generation loop, and the
statistics computed over the accepted sequence.  `long double` values are
modelled as exact rationals; the pseudo-random source is modelled as an
input stream (list) of pre-drawn values, so the loop is a deterministic
function of the configuration and the stream.
-/

namespace Diceroll

/-- Exit codes of the program (`enum returnID`). -/
inductive ReturnID where
  | success_help
  | success
  | overd_err
  | underd_err
  | zero_err
  | gen_err
  | conflict_err
  | vect_nan
  | known_err
  | other_err
deriving DecidableEq, Repr

/-- The run configuration, mirroring `struct program_args`.  The prefix,
suffix and contains pattern lists are named `preStrs`, `sufStrs` and
`subStrs` respectively. -/
structure ProgramArgs where
  -- general
  precision : ℤ
  quiet : Bool
  list : Bool
  numbers_force : Bool
  flags : Bool
  delim : String
  -- intern
  number : ℤ
  lbound : ℚ
  ubound : ℚ
  generator : String
  -- rounding
  ceil : Bool
  floor : Bool
  round : Bool
  trunc : Bool
  -- matcher
  excluded : List ℚ
  included : List ℚ
  norepeat : Bool
  preStrs : List String
  sufStrs : List String
  subStrs : List String
  -- stats
  stat_all : Bool
  stat_min : Bool
  stat_max : Bool
  stat_median : Bool
  stat_avg : Bool
  stat_var : Bool
  stat_std : Bool
  stat_coef : Bool

/-- `std::numeric_limits<long double>::max_digits10` (x86-64 80-bit long
double). -/
def ldPrec : ℤ := 21

/-- The admissible `--generator` identifiers. -/
def genOpts : List String :=
  ["minstd_rand0", "minstd_rand", "mt19937", "mt19937_64", "ranlux24_base",
   "ranlux48_base", "ranlux24", "ranlux48", "knuth_b",
   "default_random_engine", "badrandom"]

/-- A valid matcher pattern: only digits and dots, at most one dot
(`j.find_first_not_of("0123456789.") == npos && count(j, '.') <= 1`). -/
def validPat (s : String) : Bool :=
  s.data.all (fun c => c.isDigit || c == '.') && decide (s.data.count '.' ≤ 1)

/-- `parse_args`: validation of the run configuration, with the source's
check order.  Returns the classified result together with the (possibly
precision-overridden) configuration.  The `--help` branch is outside the
embedded data flow (it depends only on the raw command line). -/
def parse_args (args : ProgramArgs) : ReturnID × ProgramArgs :=
  if ldPrec < args.precision then (.overd_err, args)
  else if args.precision ≤ -1 then (.underd_err, args)
  else if args.number ≤ 0 then (.zero_err, args)
  else if !genOpts.contains args.generator then (.gen_err, args)
  else if 1 < args.ceil.toNat + args.floor.toNat + args.round.toNat
      + args.trunc.toNat then (.conflict_err, args)
  else
    -- rounding active forces precision to 0
    let args2 := if args.ceil || args.floor || args.round || args.trunc then
        { args with precision := 0 } else args
    if (args2.preStrs ++ args2.sufStrs ++ args2.subStrs).any
        (fun j => !validPat j) then (.vect_nan, args2)
    else (.success, args2)

/-- `std::round`: round to nearest, ties away from zero. -/
def roundHalfAway (x : ℚ) : ℤ :=
  if 0 ≤ x then ⌊x + 1/2⌋ else -⌊-x + 1/2⌋

/-- `std::trunc`: round toward zero. -/
def truncToward0 (x : ℚ) : ℤ :=
  if 0 ≤ x then ⌊x⌋ else ⌈x⌉

/-- The rounding policy applied to each draw (`ceil` / `floor` / `round` /
`trunc` else-if chain in the loop body). -/
def applyRounding (args : ProgramArgs) (x : ℚ) : ℚ :=
  if args.ceil then (⌈x⌉ : ℤ)
  else if args.floor then (⌊x⌋ : ℤ)
  else if args.round then roundHalfAway x
  else if args.trunc then truncToward0 x
  else x

/-- Round half to even, the rounding the C runtime applies when formatting
the exact value at a fixed number of decimals. -/
def rhe (x : ℚ) : ℤ :=
  let f := ⌊x⌋
  let r := x - (f : ℚ)
  if r < 1/2 then f
  else if 1/2 < r then f + 1
  else if f % 2 = 0 then f else f + 1

/-- Left-pad a digit string with zeros to length `p`. -/
def padZeros (s : String) (p : ℕ) : String :=
  String.mk (List.replicate (p - s.length) '0') ++ s

/-- Fixed-point rendering of a rational at `p` decimals, modelling
`oss << std::fixed << std::setprecision(p) << rand` (negative zero
formatting is simplified: the sign of the rounded result is used). -/
def toFixed (q : ℚ) (p : ℕ) : String :=
  let n := rhe (q * (10 : ℚ) ^ p)
  let sign := if n < 0 then "-" else ""
  let m := n.natAbs
  if p = 0 then sign ++ toString (m / 10 ^ p)
  else sign ++ toString (m / 10 ^ p) ++ "." ++ padZeros (toString (m % 10 ^ p)) p

/-- `boost::starts_with str s`. -/
def strStartsWith (str s : String) : Bool := List.isPrefixOf s.data str.data

/-- `boost::ends_with str s`. -/
def strEndsWith (str s : String) : Bool := List.isSuffixOf s.data str.data

/-- Does `pat` occur as a contiguous run inside `l`? -/
def subMatch : List Char → List Char → Bool
  | l, pat =>
    if List.isPrefixOf pat l then true
    else match l with
      | [] => false
      | _ :: t => subMatch t pat

/-- `boost::contains str s`. -/
def strContains (str s : String) : Bool := subMatch str.data s.data

/-- The `filter` helper: render the value at the configured output
precision and return `true` (reject) when none of the patterns matches. -/
def filterFn (rand : ℚ) (p : ℕ) (fx : List String)
    (pred : String → String → Bool) : Bool :=
  let strRand := toFixed rand p
  fx.all (fun s => !pred strRand s)

/-- The acceptance filter chain as evaluated in the loop body: `true` means
the rounded draw `r` is rejected (`continue`), given the values accepted so
far (`gen`). -/
def rejected (args : ProgramArgs) (gen : List ℚ) (r : ℚ) : Bool :=
  (!args.excluded.isEmpty && args.excluded.contains r)
  || (!args.included.isEmpty && !args.included.contains r)
  || (args.norepeat && gen.contains r)
  || (!args.preStrs.isEmpty && filterFn r args.precision.toNat args.preStrs strStartsWith)
  || (!args.sufStrs.isEmpty && filterFn r args.precision.toNat args.sufStrs strEndsWith)
  || (!args.subStrs.isEmpty && filterFn r args.precision.toNat args.subStrs strContains)

/-- No filter is active: empty excluded/included/pattern sets and no-repeat
off. -/
def noFilters (args : ProgramArgs) : Bool :=
  args.excluded.isEmpty && args.included.isEmpty && !args.norepeat
  && args.preStrs.isEmpty && args.sufStrs.isEmpty && args.subStrs.isEmpty

/-- The generation loop's mutable state: the attempt counter `i`, the list
counter, and the accepted sequence (`generated`). -/
structure LoopState where
  i : ℤ
  listCnt : ℤ
  generated : List ℚ
deriving Repr

/-- Initial loop state (`i = 1`, nothing accepted). -/
def initState : LoopState := { i := 1, listCnt := 0, generated := [] }

/-- One iteration of the loop body on one drawn value: conditional top
increment of `i` (when numbers-force is unset), rounding, the filter chain,
accumulation, and the output-branch increment of `i` (only when not quiet
and numbers-force is set). -/
def step (args : ProgramArgs) (s : LoopState) (draw : ℚ) : LoopState :=
  let i1 : ℤ := if args.numbers_force then s.i else s.i + 1
  let lc : ℤ := if args.list then s.listCnt + 1 else s.listCnt
  let r : ℚ := applyRounding args draw
  if rejected args s.generated r then
    { i := i1, listCnt := lc, generated := s.generated }
  else
    { i := if !args.quiet && args.numbers_force then i1 + 1 else i1,
      listCnt := lc,
      generated := s.generated ++ [r] }

/-- Result of running the loop on a finite draw stream: the final state,
whether the loop reached its exit condition (`i > number`), and the unread
remainder of the stream. -/
structure RunResult where
  state : LoopState
  terminated : Bool
  rest : List ℚ
deriving Repr

/-- The generation loop `for (i = 1; i <= number;)`, driven by a finite
stream of pre-drawn values; `terminated = false` means the stream was
exhausted while the loop condition still held. -/
def loopRun (args : ProgramArgs) : List ℚ → LoopState → RunResult
  | [], s => if args.number < s.i then ⟨s, true, []⟩ else ⟨s, false, []⟩
  | d :: rest, s =>
    if args.number < s.i then ⟨s, true, d :: rest⟩
    else loopRun args rest (step args s d)

/-! ## Statistics engine -/

/-- The mean: `accumulate(begin, end, 0.0) / size` (division by a zero
population size is the degenerate case the spec flags; in `ℚ` it yields 0
where IEEE arithmetic yields NaN). -/
def avgCpp (l : List ℚ) : ℚ := l.foldl (· + ·) 0 / (l.length : ℚ)

/-- Sum of squared deviations from `avg` (the `var`/`std` accumulation
loop). -/
def sqDevSum (l : List ℚ) (avg : ℚ) : ℚ :=
  l.foldl (fun acc x => acc + (x - avg) ^ 2) 0

/-- Population variance as printed by the variance block: squared
deviations from the mean divided by the population size `N`. -/
def varianceCpp (l : List ℚ) : ℚ := sqDevSum l (avgCpp l) / (l.length : ℚ)

/-- The radicand computed by the standard-deviation block (it recomputes
the same accumulation independently of the variance block). -/
def stdRadicand (l : List ℚ) : ℚ := sqDevSum l (avgCpp l) / (l.length : ℚ)

/-- Standard deviation: `sqrt(std / size)`. -/
noncomputable def stdDevCpp (l : List ℚ) : ℝ := Real.sqrt (stdRadicand l)

/-- `minmax_element` over the accepted sequence.  On an empty range the
iterators equal `end()` and dereferencing them is undefined, modelled as
`none`. -/
def minMaxCpp (l : List ℚ) : Option (ℚ × ℚ) :=
  match l with
  | [] => none
  | x :: xs => some (xs.foldl min x, xs.foldl max x)

/-- `*max_element(first, last)`.  On an empty range dereferencing `end()`
is undefined; an arbitrary junk value 0 stands in for it. -/
def maxElemD (l : List ℚ) : ℚ :=
  match l with
  | [] => 0
  | x :: xs => xs.foldl max x

/-- The median block: `nth_element` places the `size/2`-th order statistic
at the midpoint and partitions the smaller elements before it, so the value
read there and the max of the lower half are the corresponding order
statistics of the sorted sequence; the partial sort is therefore modelled
by a full sort. -/
def medianCpp (l : List ℚ) : ℚ :=
  let s := l.insertionSort (· ≤ ·)
  let m := s.getD (l.length / 2) 0
  if l.length % 2 = 0 then (m + maxElemD (s.take (l.length / 2))) / 2 else m

/-- The conventional even-length median, stated from the spec's words:
the average of the two central order statistics of the sorted sequence. -/
def conventionalMedianEven (l : List ℚ) : ℚ :=
  let s := l.insertionSort (· ≤ ·)
  (s.getD (l.length / 2 - 1) 0 + s.getD (l.length / 2) 0) / 2

/-- Default configuration as produced by the option declarations (all
switches off, `number = 1`, bounds `[0, 1]`, precision `ldPrec`,
generator `mt19937`). -/
def baseArgs : ProgramArgs where
  precision := 21
  quiet := false
  list := false
  numbers_force := false
  flags := false
  delim := "\n"
  number := 1
  lbound := 0
  ubound := 1
  generator := "mt19937"
  ceil := false
  floor := false
  round := false
  trunc := false
  excluded := []
  included := []
  norepeat := false
  preStrs := []
  sufStrs := []
  subStrs := []
  stat_all := false
  stat_min := false
  stat_max := false
  stat_median := false
  stat_avg := false
  stat_var := false
  stat_std := false
  stat_coef := false

/-- Configuration with numbers-force and quiet both set (other options at
their defaults, `number = 1`, no filters). -/
def forceQuiet : ProgramArgs := { baseArgs with numbers_force := true, quiet := true }

/-- Configuration whose included-set filter rejects every drawn value used
below, with the minimum statistic requested. -/
def emptyAccept : ProgramArgs := { baseArgs with included := [5], stat_min := true }

/-- Configuration requesting an out-of-range precision together with a
rounding mode. -/
def ceilPrec100 : ProgramArgs := { baseArgs with ceil := true, precision := 100 }

/-- Configuration requesting an in-range precision together with a rounding
mode. -/
def ceilPrec5 : ProgramArgs := { baseArgs with ceil := true, precision := 5 }

/-- C1 counterexample: on the accepted sequence [1,2,3,4] the median block
computes 2.5 (the value at the midpoint is the upper-middle order statistic
3, the max of the lower half is 2), not the 2 the claim predicts. -/
theorem c1_counterexample :
    medianCpp [1, 2, 3, 4] = 5/2 ∧ medianCpp [1, 2, 3, 4] ≠ 2 := by
  constructor <;>
    norm_num [medianCpp, maxElemD, List.insertionSort, List.orderedInsert, List.getD]

/-- C2: with numbers-force and quiet both set, the attempt counter is
incremented only in the non-quiet output branch, so after two accepted
draws the loop with `number = 1` has not terminated and the accepted
sequence already holds 2 values instead of the promised exactly 1. -/
theorem c2_eval :
    (loopRun forceQuiet [1/2, 1/3] initState).terminated = false
    ∧ (loopRun forceQuiet [1/2, 1/3] initState).state.generated.length = 2 := by
  constructor <;>
    norm_num [loopRun, step, rejected, applyRounding, initState, forceQuiet, baseArgs]

/-- C3 counterexample: with ceil active and requested precision 100, the
precision range check runs before the rounding override and validation
fails with `overd_err`, refuting "succeeds regardless of the requested
precision value". -/
theorem c3_counterexample :
    (parse_args ceilPrec100).1 = ReturnID.overd_err
    ∧ (parse_args ceilPrec100).1 ≠ ReturnID.success := by
  constructor
  · norm_num [parse_args, ceilPrec100, baseArgs, ldPrec]
  · norm_num [parse_args, ceilPrec100, baseArgs, ldPrec]
    decide

/-- C4: a run whose filter chain rejects the only draw terminates with an
empty accepted sequence, on which the min/max scan has no element to
report (`minmax_element` returns the end iterator; dereferencing it is
undefined rather than a clean not-a-number). -/
theorem c4_eval :
    (loopRun emptyAccept [1/2] initState).terminated = true
    ∧ (loopRun emptyAccept [1/2] initState).state.generated = []
    ∧ minMaxCpp ((loopRun emptyAccept [1/2] initState).state.generated) = none := by
  have h5 : ((1/2 : ℚ) == 5) = false := by
    simp only [beq_eq_false_iff_ne, ne_eq]
    norm_num
  refine ⟨?_, ?_, ?_⟩ <;>
    norm_num [loopRun, step, rejected, applyRounding, initState, emptyAccept,
      baseArgs, List.contains, List.elem, minMaxCpp, h5]

/-- C6: a rounded draw that is a member of both the excluded set and the
(non-empty) included set is rejected by the filter chain: the excluded-set
test fires first. -/
theorem c6_exclusion_wins (args : ProgramArgs) (gen : List ℚ) (v : ℚ)
    (hex : args.excluded.contains v = true)
    (hinc : args.included.contains v = true) :
    rejected args gen v = true := by
  have hne : args.excluded.isEmpty = false := by
    cases h : args.excluded with
    | nil => rw [h] at hex; simp [List.contains, List.elem] at hex
    | cons a t => simp [List.isEmpty]
  simp at hex
  simp [rejected, hne, hex]

/-- C6 witness at a concrete configuration: 2 lies in both sets and is
rejected. -/
theorem c6_witness :
    rejected { baseArgs with excluded := [2], included := [2, 3] } [] 2 = true :=
  c6_exclusion_wins _ [] 2 (by simp [baseArgs, List.contains, List.elem])
    (by simp [baseArgs, List.contains, List.elem])

/-- C7: the pattern tests render the rounded value at the configured output
precision (3.14159 at precision 2 renders "3.14", so suffix "14" matches
and "159" does not), reject exactly when no pattern in a set matches, and
an absent pattern set contributes no rejection. -/
theorem c7_pattern_filter :
    toFixed (314159/100000) 2 = "3.14"
    ∧ filterFn (314159/100000) 2 ["14"] strEndsWith = false
    ∧ filterFn (314159/100000) 2 ["159"] strEndsWith = true
    ∧ (∀ (r : ℚ) (p : ℕ) (fx : List String) (pred : String → String → Bool),
        filterFn r p fx pred = true ↔ ∀ s ∈ fx, pred (toFixed r p) s = false)
    ∧ (∀ (args : ProgramArgs) (gen : List ℚ) (r : ℚ),
        args.preStrs = [] → args.sufStrs = [] → args.subStrs = [] →
        rejected args gen r =
          ((!args.excluded.isEmpty && args.excluded.contains r)
            || (!args.included.isEmpty && !args.included.contains r)
            || (args.norepeat && gen.contains r))) := by
  have h : rhe ((314159/100000 : ℚ) * (10:ℚ) ^ (2:ℕ)) = 314 := by norm_num [rhe]
  refine ⟨?_, ?_, ?_, ?_, ?_⟩
  · simp only [toFixed, h]; decide
  · simp only [filterFn, toFixed, h]; decide
  · simp only [filterFn, toFixed, h]; decide
  · intro r p fx pred
    simp [filterFn, List.all_eq_true]
  · intro args gen r h1 h2 h3
    simp [rejected, h1, h2, h3]

/-- C7 witness: with no pattern sets configured, the filter chain reduces
to the excluded/included/no-repeat tests alone. -/
theorem c7_witness :
    rejected baseArgs [] (1/2) =
      ((!baseArgs.excluded.isEmpty && baseArgs.excluded.contains (1/2))
        || (!baseArgs.included.isEmpty && !baseArgs.included.contains (1/2))
        || (baseArgs.norepeat && (([] : List ℚ).contains (1/2)))) :=
  c7_pattern_filter.2.2.2.2 baseArgs [] (1/2) rfl rfl rfl

/-- C10: the variance block divides the sum of squared deviations from the
mean by the population size N (for [1,2,3] it yields 2/3, not the
sample-variance 1), and the standard-deviation block takes the square root
of the same population quotient. -/
theorem c10_population_variance :
    varianceCpp [1, 2, 3] = 2/3
    ∧ varianceCpp [1, 2, 3] ≠ 1
    ∧ ∀ l : List ℚ, stdDevCpp l = Real.sqrt ((varianceCpp l : ℚ) : ℝ) := by
  refine ⟨?_, ?_, fun l => rfl⟩
  · norm_num [varianceCpp, sqDevSum, avgCpp, List.foldl]
  · norm_num [varianceCpp, sqDevSum, avgCpp, List.foldl]

lemma step_i_of_force_quiet {args : ProgramArgs} (h1 : args.numbers_force = true)
    (h2 : args.quiet = true) (s : LoopState) (d : ℚ) : (step args s d).i = s.i := by
  simp only [step]
  split <;> simp [h1, h2]

/-- C5: with numbers-force and quiet both set, one loop iteration never
changes the attempt counter (its increment sits inside the non-quiet
output branch), so for any count at least 1 the loop condition stays true
and the loop never reaches its exit, whatever the draw stream supplies. -/
theorem c5_nontermination (args : ProgramArgs) (h1 : args.numbers_force = true)
    (h2 : args.quiet = true) (h3 : 1 ≤ args.number) (draws : List ℚ) :
    (loopRun args draws initState).terminated = false
    ∧ (loopRun args draws initState).state.i = 1 := by
  suffices h : ∀ (ds : List ℚ) (s : LoopState), s.i ≤ args.number →
      (loopRun args ds s).terminated = false ∧ (loopRun args ds s).state.i = s.i by
    exact h draws initState h3
  intro ds
  induction ds with
  | nil =>
    intro s hs
    simp [loopRun, not_lt.mpr hs]
  | cons d rest ih =>
    intro s hs
    have hstep := step_i_of_force_quiet h1 h2 s d
    simp only [loopRun]
    rw [if_neg (not_lt.mpr hs)]
    have hrec := ih (step args s d) (by rw [hstep]; exact hs)
    exact ⟨hrec.1, by rw [hrec.2, hstep]⟩

/-- C5 witness: at a concrete quiet numbers-force configuration the run
over a one-element stream has not terminated and the attempt counter is
still 1. -/
theorem c5_witness :
    (loopRun forceQuiet [1/2] initState).terminated = false
    ∧ (loopRun forceQuiet [1/2] initState).state.i = 1 :=
  c5_nontermination forceQuiet rfl rfl (by norm_num [forceQuiet, baseArgs]) [1/2]

lemma rejected_false_not_mem {args : ProgramArgs} {gen : List ℚ} {r : ℚ}
    (hnr : args.norepeat = true) (h : rejected args gen r = false) : r ∉ gen := by
  intro hmem
  have htrue : rejected args gen r = true := by simp [rejected, hnr, hmem]
  rw [h] at htrue
  cases htrue

lemma step_nodup {args : ProgramArgs} (hnr : args.norepeat = true) (s : LoopState)
    (d : ℚ) (h : s.generated.Nodup) : (step args s d).generated.Nodup := by
  simp only [step]
  split
  · exact h
  · next hrej =>
    have hnm : applyRounding args d ∉ s.generated :=
      rejected_false_not_mem hnr (by simpa using hrej)
    simp [List.nodup_append, h, hnm]

/-- C9: with the no-repeat flag enabled every accepted draw is checked for
exact equality against the whole accepted sequence before being appended,
so the final accepted sequence has pairwise-distinct elements for every
draw stream. -/
theorem c9_norepeat_nodup (args : ProgramArgs) (hnr : args.norepeat = true)
    (draws : List ℚ) : (loopRun args draws initState).state.generated.Nodup := by
  suffices h : ∀ (ds : List ℚ) (s : LoopState), s.generated.Nodup →
      (loopRun args ds s).state.generated.Nodup by
    exact h draws initState List.nodup_nil
  intro ds
  induction ds with
  | nil =>
    intro s hs
    simp only [loopRun]
    split <;> exact hs
  | cons d rest ih =>
    intro s hs
    simp only [loopRun]
    split
    · exact hs
    · exact ih _ (step_nodup hnr s d hs)

/-- C9 witness: a concrete no-repeat run (second draw repeats the first)
ends with a duplicate-free accepted sequence. -/
theorem c9_witness :
    (loopRun { baseArgs with norepeat := true, number := 2 } [1/2, 1/2, 1/3]
      initState).state.generated.Nodup :=
  c9_norepeat_nodup _ rfl _

lemma step_i_not_force {args : ProgramArgs} (h : args.numbers_force = false)
    (s : LoopState) (d : ℚ) : (step args s d).i = s.i + 1 := by
  simp only [step]
  split <;> simp [h]

lemma noFilters_rejected {args : ProgramArgs} (h : noFilters args = true)
    (gen : List ℚ) (r : ℚ) : rejected args gen r = false := by
  simp only [noFilters, Bool.and_eq_true] at h
  obtain ⟨⟨⟨⟨⟨he, hi⟩, hn⟩, hp⟩, hs⟩, hc⟩ := h
  have hn' : args.norepeat = false := by simpa using hn
  simp [rejected, he, hi, hp, hs, hc, hn']

lemma step_generated_accept {args : ProgramArgs} (h : noFilters args = true)
    (s : LoopState) (d : ℚ) :
    (step args s d).generated = s.generated ++ [applyRounding args d] := by
  simp only [step, noFilters_rejected h]
  simp

lemma step_generated_cases (args : ProgramArgs) (s : LoopState) (d : ℚ) :
    (step args s d).generated = s.generated
    ∨ (step args s d).generated = s.generated ++ [applyRounding args d] := by
  simp only [step]
  split
  · exact Or.inl rfl
  · exact Or.inr rfl

lemma c8_aux (args : ProgramArgs) (hnf : args.numbers_force = false) :
    ∀ (draws : List ℚ) (s : LoopState),
      s.i ≤ args.number + 1 →
      args.number + 1 - s.i ≤ (draws.length : ℤ) →
      (loopRun args draws s).terminated = true
      ∧ ((loopRun args draws s).rest.length : ℤ)
          = (draws.length : ℤ) - (args.number + 1 - s.i)
      ∧ ((loopRun args draws s).state.generated.length : ℤ)
          ≤ (s.generated.length : ℤ) + (args.number + 1 - s.i)
      ∧ (noFilters args = true →
          ((loopRun args draws s).state.generated.length : ℤ)
            = (s.generated.length : ℤ) + (args.number + 1 - s.i)) := by
  intro draws
  induction draws with
  | nil =>
    intro s h1 h2
    simp only [List.length_nil, Nat.cast_zero] at h2
    have hlt : args.number < s.i := by omega
    simp only [loopRun, if_pos hlt]
    refine ⟨trivial, ?_, ?_, fun _ => ?_⟩ <;> simp <;> omega
  | cons d rest ih =>
    intro s h1 h2
    by_cases hlt : args.number < s.i
    · simp only [loopRun, if_pos hlt]
      refine ⟨trivial, ?_, ?_, fun _ => ?_⟩ <;> simp <;> omega
    · simp only [loopRun, if_neg hlt]
      have hi' : (step args s d).i = s.i + 1 := step_i_not_force hnf s d
      have h1' : (step args s d).i ≤ args.number + 1 := by omega
      have hlcons : ((List.length (d :: rest) : ℕ) : ℤ) = (rest.length : ℤ) + 1 := by
        push_cast [List.length_cons]
        ring
      have h2' : args.number + 1 - (step args s d).i ≤ (rest.length : ℤ) := by
        rw [hlcons] at h2
        omega
      obtain ⟨ht, hr, hlen, hexact⟩ := ih (step args s d) h1' h2'
      rw [hi'] at hr hlen
      refine ⟨ht, ?_, ?_, fun hnof => ?_⟩
      · rw [hlcons]
        omega
      · rcases step_generated_cases args s d with he | he
        · rw [he] at hlen
          omega
        · rw [he] at hlen
          have : ((s.generated ++ [applyRounding args d]).length : ℤ)
              = (s.generated.length : ℤ) + 1 := by
            push_cast [List.length_append, List.length_singleton]
            ring
          rw [this] at hlen
          omega
      · have he := step_generated_accept hnof s d
        have hx := hexact hnof
        rw [he] at hx
        rw [hi'] at hx
        have : ((s.generated ++ [applyRounding args d]).length : ℤ)
            = (s.generated.length : ℤ) + 1 := by
          push_cast [List.length_append, List.length_singleton]
          ring
        rw [this] at hx
        omega

/-- C8: with numbers-force unset and a valid count, the loop consumes
exactly `number` draws from the stream (each attempt, accepted or not,
spends one unit of budget), terminates, and accepts at most `number`
values — exactly `number` when no filter is active. -/
theorem c8_budget (args : ProgramArgs) (hnf : args.numbers_force = false)
    (hn : 1 ≤ args.number) (draws : List ℚ)
    (hd : args.number ≤ (draws.length : ℤ)) :
    (loopRun args draws initState).terminated = true
    ∧ ((draws.length : ℤ) - ((loopRun args draws initState).rest.length : ℤ)
        = args.number)
    ∧ (((loopRun args draws initState).state.generated.length : ℤ) ≤ args.number)
    ∧ (noFilters args = true →
        ((loopRun args draws initState).state.generated.length : ℤ)
          = args.number) := by
  have h1 : initState.i ≤ args.number + 1 := by simp [initState]; omega
  have h2 : args.number + 1 - initState.i ≤ (draws.length : ℤ) := by
    simp [initState]; omega
  obtain ⟨ht, hr, hl, he⟩ := c8_aux args hnf draws initState h1 h2
  have e1 : initState.i = 1 := rfl
  have e2 : initState.generated = ([] : List ℚ) := rfl
  rw [e1] at hr hl he
  rw [e2] at hl he
  simp only [List.length_nil, Nat.cast_zero] at hr hl he
  exact ⟨ht, by omega, by omega, fun h => by have := he h; omega⟩

/-- C8 witness: the default configuration (no filters, numbers-force
unset, count 1) over a one-draw stream terminates having consumed the
single draw and accepted exactly one value. -/
theorem c8_witness :
    (loopRun baseArgs [1/2] initState).terminated = true
    ∧ ((([(1:ℚ)/2].length : ℤ))
        - ((loopRun baseArgs [1/2] initState).rest.length : ℤ) = baseArgs.number)
    ∧ (((loopRun baseArgs [1/2] initState).state.generated.length : ℤ)
        ≤ baseArgs.number)
    ∧ (noFilters baseArgs = true →
        ((loopRun baseArgs [1/2] initState).state.generated.length : ℤ)
          = baseArgs.number) :=
  c8_budget baseArgs rfl (by norm_num [baseArgs]) [1/2] (by norm_num [baseArgs])

lemma getD_take (s : List ℚ) : ∀ (k j : ℕ), j < k →
    (s.take k).getD j 0 = s.getD j 0 := by
  induction s with
  | nil =>
    intro k j _
    simp
  | cons x t ih =>
    intro k j h
    cases k with
    | zero => omega
    | succ k' =>
      cases j with
      | zero => simp
      | succ j' =>
        simp only [List.take_succ_cons, List.getD_cons_succ]
        exact ih k' j' (by omega)

lemma maxElemD_cons_sorted (x : ℚ) (t : List ℚ)
    (h : (x :: t).Sorted (· ≤ ·)) :
    maxElemD (x :: t) = (x :: t).getD t.length 0 := by
  induction t generalizing x with
  | nil => simp [maxElemD]
  | cons y r ih =>
    rw [List.sorted_cons] at h
    have hxy : x ≤ y := h.1 y (List.mem_cons_self y r)
    have h1 := ih y h.2
    simp only [maxElemD, List.foldl_cons] at h1 ⊢
    rw [max_eq_right hxy, List.length_cons, List.getD_cons_succ]
    exact h1

/-- C1 (amended): for an even-length accepted sequence the median block
averages the value at the midpoint — the upper-middle order statistic —
with the maximum of the lower half — the lower-middle order statistic —
which is exactly the conventional average of the two central order
statistics. -/
theorem c1_amended (l : List ℚ) (hne : l ≠ []) (hev : l.length % 2 = 0) :
    medianCpp l = conventionalMedianEven l := by
  have hpos : 0 < l.length := List.length_pos.mpr hne
  have hlen2 : 2 ≤ l.length := by omega
  simp only [medianCpp, conventionalMedianEven]
  rw [if_pos hev]
  have hperm : List.Perm (l.insertionSort (· ≤ ·)) l := l.perm_insertionSort (· ≤ ·)
  have hslen : (l.insertionSort (· ≤ ·)).length = l.length := hperm.length_eq
  have hsorted : (l.insertionSort (· ≤ ·)).Sorted (· ≤ ·) :=
    List.sorted_insertionSort (· ≤ ·) l
  have hk1 : 1 ≤ l.length / 2 := by omega
  have hk2 : l.length / 2 ≤ (l.insertionSort (· ≤ ·)).length := by
    rw [hslen]
    omega
  have htlen : ((l.insertionSort (· ≤ ·)).take (l.length / 2)).length
      = l.length / 2 := by
    rw [List.length_take]
    omega
  have hts : ((l.insertionSort (· ≤ ·)).take (l.length / 2)).Sorted (· ≤ ·) :=
    List.Pairwise.sublist (List.take_sublist _ _) hsorted
  obtain ⟨x, t, hxt⟩ : ∃ x t,
      (l.insertionSort (· ≤ ·)).take (l.length / 2) = x :: t := by
    cases hc : (l.insertionSort (· ≤ ·)).take (l.length / 2) with
    | nil =>
      rw [hc] at htlen
      simp at htlen
      omega
    | cons a b => exact ⟨a, b, rfl⟩
  have hmax : maxElemD ((l.insertionSort (· ≤ ·)).take (l.length / 2))
      = (l.insertionSort (· ≤ ·)).getD (l.length / 2 - 1) 0 := by
    rw [hxt] at hts ⊢
    rw [maxElemD_cons_sorted x t hts]
    have htl : t.length = l.length / 2 - 1 := by
      rw [hxt] at htlen
      simp only [List.length_cons] at htlen
      omega
    rw [← hxt, htl]
    exact getD_take _ _ _ (by omega)
  rw [hmax]
  ring

/-- C1 witness: on the worked example [1,2,3,4] the median block agrees
with the conventional even-length median (2.5). -/
theorem c1_witness : medianCpp [1, 2, 3, 4] = conventionalMedianEven [1, 2, 3, 4] :=
  c1_amended [1, 2, 3, 4] (by simp) (by simp)

/-- C3 (amended): when exactly one rounding mode is active and the rest of
the configuration passes validation — in particular the requested
precision lies within [0, ldPrec], since the range checks run before the
override — validation succeeds and the effective precision is silently
forced to 0. -/
theorem c3_amended (args : ProgramArgs)
    (hactive : args.ceil.toNat + args.floor.toNat + args.round.toNat
      + args.trunc.toNat = 1)
    (hp0 : 0 ≤ args.precision) (hp1 : args.precision ≤ ldPrec)
    (hn : 1 ≤ args.number)
    (hg : genOpts.contains args.generator = true)
    (hpat : ((args.preStrs ++ args.sufStrs ++ args.subStrs).all validPat) = true) :
    (parse_args args).1 = ReturnID.success
    ∧ (parse_args args).2.precision = 0 := by
  have hor : (args.ceil || args.floor || args.round || args.trunc) = true := by
    cases hc : args.ceil <;> cases hf : args.floor <;> cases hr : args.round <;>
      cases htr : args.trunc <;> simp_all
  have hany : ((args.preStrs ++ args.sufStrs ++ args.subStrs).any
      (fun j => !validPat j)) = false := by
    rw [List.any_eq_false]
    intro j hj
    have := List.all_eq_true.mp hpat j hj
    simp [this]
  simp only [parse_args]
  rw [if_neg (by omega), if_neg (by omega), if_neg (by omega),
    if_neg (by simpa using hg), if_neg (by omega)]
  simp only [hor, if_true]
  constructor
  · simp only [hany]
    simp
  · simp only [hany]
    simp

/-- C3 witness: ceil with requested precision 5 validates successfully and
the effective precision is 0. -/
theorem c3_witness :
    (parse_args ceilPrec5).1 = ReturnID.success
    ∧ (parse_args ceilPrec5).2.precision = 0 :=
  c3_amended ceilPrec5 (by decide) (by decide) (by decide) (by decide)
    (by decide) (by decide)

end Diceroll
